import Mathlib

/-!
Shallow embedding of the `bees` generational-reference arena
(`src/bees/src/lib.rs`) and proofs about its specification.

Modelling conventions:
* Machine integers (`u64`) are `Nat` with explicit `% 2 ^ 64` where the code
  can overflow, and side conditions `< 2 ^ 64` where the Rust type enforces it.
* A `Generational<T>` slot is a record of its `gen: Cell<u64>` and its
  `value: UnsafeCell<MaybeUninit<T>>`; the `MaybeUninit` is `Option V`
  (`none` = uninitialized bytes).  Reading uninitialized memory (UB in the
  source) is mapped to `none` results.
* The leaked allocations (`Box::leak`) live forever; the model keeps them all
  in a `World`, addressed by `(allocation id, slot index)` pairs, which stand
  for the raw pointers `*mut u64` / `*mut T` of the source.
* Fallible / panicking paths return `Option`: `none` means the call panics
  (index out of range, `Reused generation`, `todo!()`, counter exhaustion).
* The thread-local `OBJECT_DB: HashMap<NonZeroU64, *mut u64>` is a function
  `Nat → Option Addr`, which is functional by construction like the hash map.
-/

namespace Bees

/-- `2 ^ 64`, the number of values of the Rust `u64` type. -/
def u64Size : Nat := 2 ^ 64

/-- One `Generational<T>` storage cell: `gen: Cell<u64>` plus
`value: UnsafeCell<MaybeUninit<T>>` (`none` models uninitialized bytes). -/
structure Generational (V : Type) where
  gen : Nat
  val : Option V
deriving DecidableEq

/-- `Generational::new_empty`: generation `0`, uninitialized value. -/
def Generational.newEmpty (V : Type) : Generational V := ⟨0, none⟩

/-- `Generational::is_full`: the slot holds a value iff its generation is nonzero. -/
def Generational.isFull (s : Generational V) : Bool := s.gen != 0

/-- Address of a slot: (allocation id, index).  Models both the `*mut u64`
generation pointer and the `*mut T` value pointer of a `Generational` cell,
since both point into the same cell. -/
abbrev Addr : Type := Nat × Nat

/-- The pointee of one leaked `NonNull<[Generational<T>]>` allocation. -/
structure Slab (V : Type) where
  len : Nat
  slots : Nat → Generational V

/-- Global state: the `db::GEN` counter, the thread-local object database
(generation → generation-cell pointer), and every allocation ever leaked. -/
structure World (V : Type) where
  genCtr : Nat
  db : Nat → Option Addr
  heapLen : Nat
  heap : Nat → Slab V

/-- Dereference a slot pointer.  `none` when the address points outside every
allocation (the source never frees storage, so its pointers stay valid; the
model returns `none` for addresses no operation ever handed out). -/
def World.getSlot (w : World V) (p : Addr) : Option (Generational V) :=
  if p.1 < w.heapLen ∧ p.2 < (w.heap p.1).len then some ((w.heap p.1).slots p.2) else none

/-- Store through a slot pointer (no-op on addresses outside every allocation). -/
def World.setSlot (w : World V) (p : Addr) (s : Generational V) : World V :=
  { w with heap := fun a =>
      if a = p.1 then
        { len := (w.heap p.1).len,
          slots := fun i => if i = p.2 then s else (w.heap p.1).slots i }
      else w.heap a }

/-- `HashMap::remove` on the object database. -/
def dbRemove (db : Nat → Option Addr) (g : Nat) : Nat → Option Addr :=
  fun x => if x = g then none else db x

/-- `Entry::insert` on the object database. -/
def dbInsert (db : Nat → Option Addr) (g : Nat) (p : Addr) : Nat → Option Addr :=
  fun x => if x = g then some p else db x

/-- `db::gen`: `GEN.fetch_add(1, Relaxed)` starting from `1`, wrapped in
`NonZeroU64::new(..).unwrap()`.  Returns the old counter value; panics
(`none`) iff the counter has wrapped around to `0`. -/
def dbGen (w : World V) : Option (Nat × World V) :=
  let old := w.genCtr
  let w' : World V := { w with genCtr := (w.genCtr + 1) % u64Size }
  if old = 0 then none else some (old, w')

/-- `db::alloc`: leak a fresh boxed slice of `len` empty `Generational` cells;
returns the new allocation id. -/
def dbAlloc (w : World V) (len : Nat) : Nat × World V :=
  (w.heapLen,
    { w with
      heapLen := w.heapLen + 1,
      heap := fun a =>
        if a = w.heapLen then ⟨len, fun _ => Generational.newEmpty V⟩ else w.heap a })

/-- `db::realloc`: body is `todo!()`, every call panics. -/
def dbRealloc (_w : World V) (_a : Nat) (_size : Nat) : Option (Nat × World V) :=
  none

/-- `db::dealloc`: body is empty (`// TODO`) — the call silently does nothing
and the storage stays leaked. -/
def dbDealloc (w : World V) (_a : Nat) : World V :=
  w

/-- `Generational::replace`: reads out the old occupant (removing its
generation from the object database) and either installs `(gen, value)`
(panicking — `none` — on a `Reused generation`) or clears the slot to
generation `0`.  `none` also models the caller's `self.values()[index]`
panic, via an out-of-range slot address. -/
def Generational.replace (w : World V) (p : Addr) (arg : Option (Nat × V)) :
    Option (Option V × World V) :=
  match w.getSlot p with
  | none => none
  | some slot =>
    match arg with
    | some (g, v) =>
      match (if slot.isFull then dbRemove w.db slot.gen else w.db) g with
      | some _ => none
      | none =>
        some (if slot.isFull then slot.val else none,
          World.setSlot
            { w with db := dbInsert (if slot.isFull then dbRemove w.db slot.gen else w.db) g p }
            p ⟨g, some v⟩)
    | none =>
      some (if slot.isFull then slot.val else none,
        World.setSlot { w with db := if slot.isFull then dbRemove w.db slot.gen else w.db }
          p ⟨0, slot.val⟩)

/-- `Ref<T>`: captured generation, pointer to the owning slot's generation
cell, and a payload pointer of type `π` (`Addr` for whole-slot references;
field projections use other pointer types). -/
structure Ref (π : Type) where
  genPtr : Addr
  gen : Nat
  value : π
deriving DecidableEq

/-- `Ref::is_alive`: compare the captured generation with the slot's current
generation (`self.gen.get() == *self.gen_ptr`). -/
def Ref.isAlive (w : World V) (r : Ref π) : Bool :=
  match w.getSlot r.genPtr with
  | some slot => r.gen == slot.gen
  | none => false

/-- `Ref::get_unchecked`: the raw payload pointer, no validity check. -/
def Ref.getUnchecked (r : Ref π) : π := r.value

/-- `Ref::try_get`: the payload pointer, gated on liveness. -/
def Ref.tryGet (w : World V) (r : Ref π) : Option π :=
  if r.isAlive w then some r.getUnchecked else none

/-- `Ref::get`: `try_get().expect(DANGLING_ERR)`; `none` is the panic. -/
def Ref.get (w : World V) (r : Ref π) : Option π :=
  r.tryGet w

/-- Read a `T` out of a value pointer (`ptr.read()`); `none` when the address
is invalid or the bytes are uninitialized (UB in the source). -/
def World.readVal (w : World V) (p : Addr) : Option V :=
  (w.getSlot p).bind fun s => s.val

/-- Write a `T` through a value pointer (`ptr.write(v)`). -/
def World.writeVal (w : World V) (p : Addr) (v : V) : World V :=
  match w.getSlot p with
  | some s => w.setSlot p ⟨s.gen, some v⟩
  | none => w

/-- `Ref::try_read` for `T: Copy` whole-slot references. -/
def Ref.tryRead (w : World V) (r : Ref Addr) : Option V :=
  (r.tryGet w).bind fun p => w.readVal p

/-- `Ref::read`: `try_read().expect(DANGLING_ERR)`; `none` is the panic. -/
def Ref.read (w : World V) (r : Ref Addr) : Option V :=
  r.tryRead w

/-- `Ref::try_write`: read the prior value, store the new one, return the
prior value; `none` when the reference is dead. -/
def Ref.tryWrite (w : World V) (r : Ref Addr) (v : V) : Option (V × World V) :=
  (r.tryGet w).bind fun p => (w.readVal p).map fun old => (old, w.writeVal p v)

/-- `Ref::write`: `try_write(value).expect(DANGLING_ERR)`; `none` is the panic. -/
def Ref.write (w : World V) (r : Ref Addr) (v : V) : Option (V × World V) :=
  r.tryWrite w v

/-- `Ref::subfield_unchecked`: same generation gate, new payload pointer. -/
def Ref.subfieldUnchecked (r : Ref π) (data : ρ) : Ref ρ :=
  { genPtr := r.genPtr, gen := r.gen, value := data }

/-- `Ref::get_for_macro`: `(self, self.get())` — panics (`none`) when dead. -/
def Ref.getForProjection (w : World V) (r : Ref π) : Option (Ref π × π) :=
  (r.get w).map fun p => (r, p)

/-- The `subfield!` projection: obtain the payload pointer via
`get_for_macro` (which panics on a dead reference), compute the field address
(`addr_of_mut!((*ptr).$field)`, modelled by `f`), and rebuild with
`subfield_unchecked`. -/
def subfield (w : World V) (r : Ref π) (f : π → ρ) : Option (Ref ρ) :=
  (r.getForProjection w).map fun rp => rp.1.subfieldUnchecked (f rp.2)

/-- `MovableRef<T>`: like `Ref` but the payload pointer sits in a `Cell`. -/
structure MovableRef (π : Type) where
  genPtr : Addr
  gen : Nat
  value : π
deriving DecidableEq

/-- `MovableRef::force_resolve_prim`: rebuild a `Ref` from the recorded
location, even if stale. -/
def MovableRef.forceResolvePrim (m : MovableRef π) : Ref π :=
  { genPtr := m.genPtr, gen := m.gen, value := m.value }

/-- `MovableRef::repair_resolve_prim`: return the resolved reference if it is
alive; otherwise the body is `todo!()` — a panic, modelled by `none`. -/
def MovableRef.repairResolvePrim (w : World V) (m : MovableRef π) : Option (Ref π) :=
  let resolved := m.forceResolvePrim
  if resolved.isAlive w then some resolved else none

/-- The arena handle `Allocation<T>` is `Copy` and only wraps the leaked
pointer; the model passes the allocation id `a` explicitly. -/
def Allocation.putWithGen (w : World V) (a i g : Nat) (v : V) :
    Option (Ref Addr × World V) :=
  (Generational.replace w (a, i) (some (g, v))).map fun res =>
    ({ genPtr := (a, i), gen := g, value := (a, i) }, res.2)

/-- `Allocation::put`: `put_with_gen(index, db::gen(), value)`. -/
def Allocation.put (w : World V) (a i : Nat) (v : V) : Option (Ref Addr × World V) :=
  (dbGen w).bind fun gw => Allocation.putWithGen gw.2 a i gw.1 v

/-- `Allocation::take`: `replace(None)`; the inner `Option` is the removed
occupant, the outer `none` is the out-of-range panic. -/
def Allocation.take (w : World V) (a i : Nat) : Option (Option V × World V) :=
  Generational.replace w (a, i) none

/-- `Allocation::try_get`: a fresh reference to the occupant, `some none`
when the slot is empty, outer `none` on the out-of-range panic. -/
def Allocation.tryGet (w : World V) (a i : Nat) : Option (Option (Ref Addr)) :=
  match w.getSlot (a, i) with
  | none => none
  | some slot =>
    if slot.isFull then some (some { genPtr := (a, i), gen := slot.gen, value := (a, i) })
    else some none

/-- `Allocation::get`: `try_get(index).unwrap()`. -/
def Allocation.get (w : World V) (a i : Nat) : Option (Ref Addr) :=
  (Allocation.tryGet w a i).bind id

/-- `Allocation::new`: `db::alloc(len)`. -/
def Allocation.new (w : World V) (len : Nat) : Nat × World V :=
  dbAlloc w len

/-- The loop of `Allocation::dealloc`: `replace(None)` on each slot in order. -/
def Allocation.deallocFrom (a : Nat) : World V → Nat → Nat → Option (World V)
  | w, _, 0 => some w
  | w, i, fuel + 1 =>
    (Generational.replace w (a, i) none).bind fun res =>
      Allocation.deallocFrom a res.2 (i + 1) fuel

/-- `Allocation::dealloc`: disconnect every reference, then `db::dealloc`
(which does nothing).  The handle is always valid in the source; invalid ids
are mapped to `none`. -/
def Allocation.dealloc (w : World V) (a : Nat) : Option (World V) :=
  if a < w.heapLen then
    (Allocation.deallocFrom a w 0 ((w.heap a).len)).map fun w1 => dbDealloc w1 a
  else none

/-- Modelled from the spec: `destroy`/`try_destroy` appear in spec §4.3 but
are absent from the source.  Per the spec's words, `try_destroy` "drops the
value in place without moving it, demotes the slot; idempotent — calling on
an already-dead reference is a no-op that reports failure, never a
double-drop".  Demotion mirrors `replace(None)`: the generation is
unregistered from the object database and the slot's generation becomes `0`;
dropping in place leaves the bytes uninitialized. -/
def Ref.tryDestroy (w : World V) (r : Ref Addr) : Bool × World V :=
  if r.isAlive w then
    (true, World.setSlot { w with db := dbRemove w.db r.gen } r.genPtr ⟨0, none⟩)
  else (false, w)

/-- The state-changing operations reachable through the public API. -/
inductive Op (V : Type) where
  | newAlloc (len : Nat)
  | put (a i : Nat) (v : V)
  | putWithGen (a i g : Nat) (v : V)
  | take (a i : Nat)
  | tryWrite (r : Ref Addr) (v : V)
  | destroy (r : Ref Addr)
  | dealloc (a : Nat)
deriving DecidableEq

/-- One step of the public API; `none` is a panic (no successor state).
`put_with_gen` takes a `NonZeroU64`, so the Rust type system imposes
`0 < g < 2 ^ 64` on its argument. -/
def exec (w : World V) : Op V → Option (World V)
  | .newAlloc len => some (Allocation.new w len).2
  | .put a i v => (Allocation.put w a i v).map (·.2)
  | .putWithGen a i g v =>
    if 0 < g ∧ g < u64Size then (Allocation.putWithGen w a i g v).map (·.2) else none
  | .take a i => (Allocation.take w a i).map (·.2)
  | .tryWrite r v =>
    match r.tryWrite w v with
    | some res => some res.2
    | none => some w
  | .destroy r => some (r.tryDestroy w).2
  | .dealloc a => Allocation.dealloc w a

/-- Run a list of operations in order. -/
def execTrace (w : World V) : List (Op V) → Option (World V)
  | [] => some w
  | op :: ops => (exec w op).bind fun w1 => execTrace w1 ops

/-- The initial state: counter `1` (`AtomicU64::new(1)`), empty object
database, no allocations. -/
def initWorld (V : Type) : World V :=
  { genCtr := 1, db := fun _ => none, heapLen := 0,
    heap := fun _ => ⟨0, fun _ => Generational.newEmpty V⟩ }

/-- A state reachable from program start through the public API. -/
def Reachable (w : World V) : Prop :=
  ∃ ops : List (Op V), execTrace (initWorld V) ops = some w

/-- The object-database invariant maintained by `Generational::replace`. -/
structure Wf (w : World V) : Prop where
  dbToSlot : ∀ g p, w.db g = some p → 0 < g ∧ ∃ s, w.getSlot p = some s ∧ s.gen = g
  slotToDb : ∀ p s, w.getSlot p = some s → s.gen ≠ 0 → w.db s.gen = some p
  valInit : ∀ p s, w.getSlot p = some s → s.gen ≠ 0 → s.val.isSome = true

/-- `op` clears the slot at `p`: it is a `take` of that index, a `dealloc` of
its arena, or a successful `destroy` through that slot. -/
def clearsSlot (op : Op V) (w : World V) (p : Addr) : Prop :=
  op = Op.take p.1 p.2 ∨ op = Op.dealloc p.1 ∨
    ∃ r2 : Ref Addr, op = Op.destroy r2 ∧ r2.genPtr = p ∧ r2.isAlive w = true ∧ 0 < r2.gen

/-- `n` successive calls of the generation allocator `db::gen`. -/
def genCalls (w : World V) : Nat → Option (List Nat × World V)
  | 0 => some ([], w)
  | n + 1 =>
    (dbGen w).bind fun gw =>
      (genCalls gw.2 n).map fun rest => (gw.1 :: rest.1, rest.2)

/-- The shape of a reference that can never come back to life: its slot does
not carry its generation, its generation is below the allocator counter (or
the counter has wrapped to `0`, after which `put` always panics), and the
counter is a `u64` value. -/
def StaysDead (r : Ref π) (w : World V) : Prop :=
  r.isAlive w = false ∧ (r.gen < w.genCtr ∨ w.genCtr = 0) ∧ w.genCtr < u64Size

/-- A one-slot arena holding generation `5`, value `10` (concrete example
state used to evaluate the definitions). -/
def sampleTrace1 : List (Op Nat) := [Op.newAlloc 1, Op.putWithGen 0 0 5 10]

/-- The concrete state reached by `sampleTrace1`. -/
def sampleW1 : World Nat := (execTrace (initWorld Nat) sampleTrace1).getD (initWorld Nat)

/-- The reference returned by the `put_with_gen` of `sampleTrace1`. -/
def sampleRef : Ref Addr := { genPtr := (0, 0), gen := 5, value := (0, 0) }

/-- `sampleW1` after `take(0)`: `sampleRef` is now dead. -/
def sampleDeadW : World Nat := (execTrace sampleW1 [Op.take 0 0]).getD (initWorld Nat)

/-- `sampleDeadW` after re-registering generation `5` at index `0` through
`put_with_gen` — the slot carries generation `5` again. -/
def sampleRevivedW : World Nat :=
  (execTrace sampleDeadW [Op.putWithGen 0 0 5 20]).getD (initWorld Nat)

/-- A stale movable reference into `sampleW1` (generation `3` was never the
slot's current generation). -/
def sampleStaleMov : MovableRef Addr := { genPtr := (0, 0), gen := 3, value := (0, 0) }

/-- A movable reference that resolves to `sampleRef`. -/
def sampleMov : MovableRef Addr := { genPtr := (0, 0), gen := 5, value := (0, 0) }

/-- A one-slot arena filled through `put` (allocator-issued generation `1`). -/
def sampleTrace2 : List (Op Nat) := [Op.newAlloc 1, Op.put 0 0 10]

/-- The concrete state reached by `sampleTrace2` (counter has advanced to 2). -/
def sampleW2 : World Nat := (execTrace (initWorld Nat) sampleTrace2).getD (initWorld Nat)

/-- The reference returned by the `put` of `sampleTrace2`. -/
def sampleRef2 : Ref Addr := { genPtr := (0, 0), gen := 1, value := (0, 0) }

/-- `sampleW2` after `take(0)`: `sampleRef2` is dead. -/
def sampleDead2 : World Nat := (execTrace sampleW2 [Op.take 0 0]).getD (initWorld Nat)

end Bees

namespace Bees

/-! ### Basic lemmas about the memory model -/

theorem getSlot_setDb (w : World V) (d : Nat → Option Addr) (q : Addr) :
    World.getSlot { w with db := d } q = w.getSlot q := rfl

theorem getSlot_setCtr (w : World V) (c : Nat) (q : Addr) :
    World.getSlot { w with genCtr := c } q = w.getSlot q := rfl

theorem getSlot_setSlot (w : World V) (p : Addr) (s : Generational V) (q : Addr) :
    (w.setSlot p s).getSlot q =
      if q = p then (w.getSlot p).map (fun _ => s) else w.getSlot q := by
  obtain ⟨qa, qi⟩ := q
  obtain ⟨pa, pi⟩ := p
  unfold World.setSlot World.getSlot
  by_cases h1 : qa = pa
  · subst h1
    by_cases h2 : qi = pi
    · subst h2
      simp
    · simp [h2, Prod.ext_iff]
  · simp [h1, Prod.ext_iff]

theorem setSlot_genCtr (w : World V) (p : Addr) (s : Generational V) :
    (w.setSlot p s).genCtr = w.genCtr := rfl

theorem setSlot_db (w : World V) (p : Addr) (s : Generational V) :
    (w.setSlot p s).db = w.db := rfl

theorem setSlot_heapLen (w : World V) (p : Addr) (s : Generational V) :
    (w.setSlot p s).heapLen = w.heapLen := rfl

theorem setSlot_len (w : World V) (p : Addr) (s : Generational V) (b : Nat) :
    ((w.setSlot p s).heap b).len = (w.heap b).len := by
  unfold World.setSlot
  by_cases h : b = p.1 <;> simp [h]

theorem isAlive_true_iff (w : World V) (r : Ref π) :
    r.isAlive w = true ↔ ∃ s, w.getSlot r.genPtr = some s ∧ r.gen = s.gen := by
  unfold Ref.isAlive
  cases h : w.getSlot r.genPtr <;> simp

theorem isAlive_false_iff (w : World V) (r : Ref π) :
    r.isAlive w = false ↔ ∀ s, w.getSlot r.genPtr = some s → r.gen ≠ s.gen := by
  unfold Ref.isAlive
  cases h : w.getSlot r.genPtr <;> simp

/-! ### Characterizations of `Generational::replace` -/

theorem replace_none_spec {w : World V} {p : Addr} {old : Option V} {w' : World V}
    (h : Generational.replace w p none = some (old, w')) :
    ∃ s, w.getSlot p = some s ∧
      old = (if s.isFull then s.val else none) ∧
      w' = World.setSlot
        { w with db := if s.isFull then dbRemove w.db s.gen else w.db } p ⟨0, s.val⟩ := by
  cases hs : w.getSlot p with
  | none => simp [Generational.replace, hs] at h
  | some s =>
    simp only [Generational.replace, hs, Option.some.injEq, Prod.mk.injEq] at h
    exact ⟨s, rfl, h.1.symm, h.2.symm⟩

theorem replace_put_spec {w : World V} {p : Addr} {g : Nat} {v : V}
    {old : Option V} {w' : World V}
    (h : Generational.replace w p (some (g, v)) = some (old, w')) :
    ∃ s, w.getSlot p = some s ∧
      old = (if s.isFull then s.val else none) ∧
      (if s.isFull then dbRemove w.db s.gen else w.db) g = none ∧
      w' = World.setSlot
        { w with db := dbInsert (if s.isFull then dbRemove w.db s.gen else w.db) g p }
        p ⟨g, some v⟩ := by
  cases hs : w.getSlot p with
  | none => simp [Generational.replace, hs] at h
  | some s =>
    cases hdb : (if s.isFull then dbRemove w.db s.gen else w.db) g with
    | some q => simp [Generational.replace, hs, hdb] at h
    | none =>
      simp only [Generational.replace, hs, hdb, Option.some.injEq, Prod.mk.injEq] at h
      exact ⟨s, rfl, h.1.symm, hdb, h.2.symm⟩

end Bees

namespace Bees

/-! ### The object-database invariant is preserved by every operation -/

theorem isFull_true {s : Generational V} (h : s.isFull = true) : s.gen ≠ 0 := by
  simpa [Generational.isFull] using h

theorem isFull_false {s : Generational V} (h : s.isFull = false) : s.gen = 0 := by
  simpa [Generational.isFull] using h

theorem db1_some {w : World V} {s : Generational V} {p : Addr}
    (hW : Wf w) (hs : w.getSlot p = some s) {g : Nat} {q : Addr}
    (h : (if s.isFull then dbRemove w.db s.gen else w.db) g = some q) :
    w.db g = some q ∧ q ≠ p := by
  by_cases hf : s.isFull = true
  · rw [if_pos hf] at h
    unfold dbRemove at h
    by_cases hg : g = s.gen
    · simp [hg] at h
    · rw [if_neg hg] at h
      refine ⟨h, fun hqp => ?_⟩
      subst hqp
      obtain ⟨-, s', hs', hgen⟩ := hW.dbToSlot g q h
      rw [hs] at hs'
      cases hs'
      exact hg hgen.symm
  · rw [Bool.not_eq_true] at hf
    rw [if_neg (by simp [hf])] at h
    refine ⟨h, fun hqp => ?_⟩
    subst hqp
    obtain ⟨hgpos, s', hs', hgen⟩ := hW.dbToSlot g q h
    rw [hs] at hs'
    cases hs'
    rw [isFull_false hf] at hgen
    omega

theorem db1_keep {w : World V} {s : Generational V} {p : Addr}
    (hW : Wf w) (hs : w.getSlot p = some s) {g : Nat} {q : Addr}
    (h : w.db g = some q) (hq : q ≠ p) :
    (if s.isFull then dbRemove w.db s.gen else w.db) g = some q := by
  by_cases hf : s.isFull = true
  · rw [if_pos hf]
    have hg : g ≠ s.gen := by
      intro hgg
      subst hgg
      have hp := hW.slotToDb p s hs (isFull_true hf)
      rw [h] at hp
      cases hp
      exact hq rfl
    unfold dbRemove
    rw [if_neg hg]
    exact h
  · rw [Bool.not_eq_true] at hf
    rw [if_neg (by simp [hf])]
    exact h

theorem wf_replace_none {w : World V} {p : Addr} {old : Option V} {w' : World V}
    (hW : Wf w) (h : Generational.replace w p none = some (old, w')) : Wf w' := by
  obtain ⟨s, hs, -, hw'⟩ := replace_none_spec h
  subst hw'
  constructor
  · intro g q hg
    have hg' : (if s.isFull then dbRemove w.db s.gen else w.db) g = some q := hg
    obtain ⟨hdb, hqp⟩ := db1_some hW hs hg'
    obtain ⟨hgpos, s', hs', hgen⟩ := hW.dbToSlot g q hdb
    refine ⟨hgpos, s', ?_, hgen⟩
    rw [getSlot_setSlot, if_neg hqp]
    exact hs'
  · intro q s' hq hne
    rw [getSlot_setSlot] at hq
    by_cases hqp : q = p
    · subst hqp
      rw [if_pos rfl, getSlot_setDb, hs, Option.map_some'] at hq
      cases hq
      simp at hne
    · rw [if_neg hqp, getSlot_setDb] at hq
      have hdb := hW.slotToDb q s' hq hne
      exact db1_keep hW hs hdb hqp
  · intro q s' hq hne
    rw [getSlot_setSlot] at hq
    by_cases hqp : q = p
    · subst hqp
      rw [if_pos rfl, getSlot_setDb, hs, Option.map_some'] at hq
      cases hq
      simp at hne
    · rw [if_neg hqp, getSlot_setDb] at hq
      exact hW.valInit q s' hq hne

theorem wf_replace_put {w : World V} {p : Addr} {g : Nat} {v : V}
    {old : Option V} {w' : World V}
    (hW : Wf w) (hgpos : 0 < g)
    (h : Generational.replace w p (some (g, v)) = some (old, w')) : Wf w' := by
  obtain ⟨s, hs, -, hdb1, hw'⟩ := replace_put_spec h
  subst hw'
  constructor
  · intro g' q hg
    have hg' : dbInsert (if s.isFull then dbRemove w.db s.gen else w.db) g p g' = some q := hg
    unfold dbInsert at hg'
    by_cases hgg : g' = g
    · rw [if_pos hgg] at hg'
      cases hg'
      subst hgg
      refine ⟨hgpos, ⟨g', some v⟩, ?_, rfl⟩
      rw [getSlot_setSlot, if_pos rfl, getSlot_setDb, hs, Option.map_some']
    · rw [if_neg hgg] at hg'
      obtain ⟨hdb, hqp⟩ := db1_some hW hs hg'
      obtain ⟨hg'pos, s', hs', hgen⟩ := hW.dbToSlot g' q hdb
      refine ⟨hg'pos, s', ?_, hgen⟩
      rw [getSlot_setSlot, if_neg hqp]
      exact hs'
  · intro q s' hq hne
    rw [getSlot_setSlot] at hq
    by_cases hqp : q = p
    · subst hqp
      rw [if_pos rfl, getSlot_setDb, hs, Option.map_some'] at hq
      cases hq
      show dbInsert _ g q g = some q
      unfold dbInsert
      rw [if_pos rfl]
    · rw [if_neg hqp, getSlot_setDb] at hq
      have hdb := hW.slotToDb q s' hq hne
      have hkeep := db1_keep hW hs hdb hqp
      have hgg : s'.gen ≠ g := by
        intro hgg
        rw [hgg] at hkeep
        rw [hkeep] at hdb1
        cases hdb1
      show dbInsert _ g p s'.gen = some q
      unfold dbInsert
      rw [if_neg hgg]
      exact hkeep
  · intro q s' hq hne
    rw [getSlot_setSlot] at hq
    by_cases hqp : q = p
    · subst hqp
      rw [if_pos rfl, getSlot_setDb, hs, Option.map_some'] at hq
      cases hq
      rfl
    · rw [if_neg hqp, getSlot_setDb] at hq
      exact hW.valInit q s' hq hne

end Bees

namespace Bees

theorem getSlot_dbAlloc (w : World V) (len : Nat) (q : Addr) :
    (dbAlloc w len).2.getSlot q =
      if q.1 = w.heapLen then (if q.2 < len then some (Generational.newEmpty V) else none)
      else w.getSlot q := by
  unfold dbAlloc World.getSlot
  by_cases h1 : q.1 = w.heapLen
  · simp [h1]
  · have h2 : q.1 < w.heapLen + 1 ↔ q.1 < w.heapLen := by omega
    simp [h1, h2]

theorem wf_dbAlloc {w : World V} (hW : Wf w) (len : Nat) : Wf (dbAlloc w len).2 := by
  constructor
  · intro g q hg
    obtain ⟨hgpos, s', hs', hgen⟩ := hW.dbToSlot g q hg
    refine ⟨hgpos, s', ?_, hgen⟩
    rw [getSlot_dbAlloc]
    have hq1 : q.1 ≠ w.heapLen := by
      intro h1
      unfold World.getSlot at hs'
      rw [h1] at hs'
      simp at hs'
    rw [if_neg hq1]
    exact hs'
  · intro q s' hq hne
    rw [getSlot_dbAlloc] at hq
    by_cases h1 : q.1 = w.heapLen
    · rw [if_pos h1] at hq
      by_cases h2 : q.2 < len
      · rw [if_pos h2] at hq
        cases hq
        simp [Generational.newEmpty] at hne
      · rw [if_neg h2] at hq
        cases hq
    · rw [if_neg h1] at hq
      exact hW.slotToDb q s' hq hne
  · intro q s' hq hne
    rw [getSlot_dbAlloc] at hq
    by_cases h1 : q.1 = w.heapLen
    · rw [if_pos h1] at hq
      by_cases h2 : q.2 < len
      · rw [if_pos h2] at hq
        cases hq
        simp [Generational.newEmpty] at hne
      · rw [if_neg h2] at hq
        cases hq
    · rw [if_neg h1] at hq
      exact hW.valInit q s' hq hne

theorem wf_writeVal {w : World V} (hW : Wf w) (p : Addr) (v : V) : Wf (w.writeVal p v) := by
  unfold World.writeVal
  cases hs : w.getSlot p with
  | none => exact hW
  | some s =>
    constructor
    · intro g q hg
      obtain ⟨hgpos, s', hs', hgen⟩ := hW.dbToSlot g q hg
      by_cases hqp : q = p
      · refine ⟨hgpos, ⟨s.gen, some v⟩, ?_, ?_⟩
        · rw [getSlot_setSlot, if_pos hqp, hs, Option.map_some']
        · rw [hqp, hs] at hs'
          cases hs'
          exact hgen
      · refine ⟨hgpos, s', ?_, hgen⟩
        rw [getSlot_setSlot, if_neg hqp]
        exact hs'
    · intro q s' hq hne
      rw [getSlot_setSlot] at hq
      show w.db s'.gen = some q
      by_cases hqp : q = p
      · rw [if_pos hqp, hs, Option.map_some'] at hq
        cases hq
        rw [hqp]
        exact hW.slotToDb p s hs hne
      · rw [if_neg hqp] at hq
        exact hW.slotToDb q s' hq hne
    · intro q s' hq hne
      rw [getSlot_setSlot] at hq
      by_cases hqp : q = p
      · rw [if_pos hqp, hs, Option.map_some'] at hq
        cases hq
        rfl
      · rw [if_neg hqp] at hq
        exact hW.valInit q s' hq hne

theorem wf_tryDestroy {w : World V} (hW : Wf w) (r : Ref Addr) : Wf (r.tryDestroy w).2 := by
  unfold Ref.tryDestroy
  by_cases ha : r.isAlive w = true
  · obtain ⟨s, hs, hgen⟩ := (isAlive_true_iff w r).mp ha
    rw [if_pos ha]
    constructor
    · intro g q hg
      have hg' : dbRemove w.db r.gen g = some q := hg
      unfold dbRemove at hg'
      by_cases hgr : g = r.gen
      · simp [hgr] at hg'
      · rw [if_neg hgr] at hg'
        obtain ⟨hgpos, s', hs', hgen'⟩ := hW.dbToSlot g q hg'
        have hqp : q ≠ r.genPtr := by
          intro hqp
          rw [hqp, hs] at hs'
          cases hs'
          rw [← hgen] at hgen'
          exact hgr hgen'.symm
        refine ⟨hgpos, s', ?_, hgen'⟩
        rw [getSlot_setSlot, if_neg hqp]
        exact hs'
    · intro q s' hq hne
      rw [getSlot_setSlot] at hq
      by_cases hqp : q = r.genPtr
      · rw [if_pos hqp, getSlot_setDb, hs, Option.map_some'] at hq
        cases hq
        simp at hne
      · rw [if_neg hqp, getSlot_setDb] at hq
        have hdb := hW.slotToDb q s' hq hne
        show dbRemove w.db r.gen s'.gen = some q
        unfold dbRemove
        have hgr : s'.gen ≠ r.gen := by
          intro hgg
          have hfull : s.gen ≠ 0 := by
            rw [← hgen, ← hgg]
            exact hne
          have hp := hW.slotToDb r.genPtr s hs hfull
          rw [hgg] at hdb
          rw [← hgen] at hp
          rw [hdb] at hp
          cases hp
          exact hqp rfl
        rw [if_neg hgr]
        exact hdb
    · intro q s' hq hne
      rw [getSlot_setSlot] at hq
      by_cases hqp : q = r.genPtr
      · rw [if_pos hqp, getSlot_setDb, hs, Option.map_some'] at hq
        cases hq
        simp at hne
      · rw [if_neg hqp, getSlot_setDb] at hq
        exact hW.valInit q s' hq hne
  · rw [if_neg ha]
    exact hW

end Bees

namespace Bees

theorem dbGen_spec {w : World V} {g : Nat} {w' : World V} (h : dbGen w = some (g, w')) :
    g = w.genCtr ∧ 0 < g ∧ w' = { w with genCtr := (w.genCtr + 1) % u64Size } := by
  simp only [dbGen] at h
  split at h
  next h0 => cases h
  next h0 =>
    cases h
    exact ⟨rfl, Nat.pos_of_ne_zero h0, rfl⟩

theorem tryWrite_spec {w : World V} {r : Ref Addr} {v : V} {old : V} {w' : World V}
    (h : r.tryWrite w v = some (old, w')) :
    r.isAlive w = true ∧ w.readVal r.value = some old ∧ w' = w.writeVal r.value v := by
  unfold Ref.tryWrite Ref.tryGet at h
  by_cases ha : r.isAlive w = true
  · rw [if_pos ha] at h
    simp only [Option.some_bind, Ref.getUnchecked] at h
    cases hrv : w.readVal r.value with
    | none => rw [hrv] at h; cases h
    | some o =>
      rw [hrv] at h
      cases h
      exact ⟨ha, rfl, rfl⟩
  · rw [if_neg ha] at h
    cases h

theorem wf_putWithGen {w : World V} {a i g : Nat} {v : V} {r : Ref Addr} {w' : World V}
    (hW : Wf w) (hgpos : 0 < g)
    (h : Allocation.putWithGen w a i g v = some (r, w')) : Wf w' := by
  unfold Allocation.putWithGen at h
  cases hrep : Generational.replace w (a, i) (some (g, v)) with
  | none => rw [hrep] at h; cases h
  | some res =>
    obtain ⟨old, w2⟩ := res
    rw [hrep] at h
    cases h
    exact wf_replace_put hW hgpos hrep

theorem wf_deallocFrom {a : Nat} (fuel : Nat) :
    ∀ (w : World V) (j : Nat) (w' : World V),
      Wf w → Allocation.deallocFrom a w j fuel = some w' → Wf w' := by
  induction fuel with
  | zero =>
    intro w j w' hW h
    cases h
    exact hW
  | succ fuel ih =>
    intro w j w' hW h
    unfold Allocation.deallocFrom at h
    cases hrep : Generational.replace w (a, j) none with
    | none => rw [hrep] at h; cases h
    | some res =>
      obtain ⟨old, w1⟩ := res
      rw [hrep] at h
      exact ih w1 (j + 1) w' (wf_replace_none hW hrep) h

theorem wf_exec {w : World V} {op : Op V} {w' : World V}
    (hW : Wf w) (h : exec w op = some w') : Wf w' := by
  cases op with
  | newAlloc len =>
    cases h
    exact wf_dbAlloc hW len
  | put a i v =>
    simp only [exec, Allocation.put] at h
    cases hg : dbGen w with
    | none => rw [hg] at h; cases h
    | some gw =>
      obtain ⟨g, w1⟩ := gw
      rw [hg] at h
      simp only [Option.some_bind] at h
      obtain ⟨hgc, hgpos, hw1⟩ := dbGen_spec hg
      cases hput : Allocation.putWithGen w1 a i g v with
      | none => rw [hput] at h; cases h
      | some rw2 =>
        obtain ⟨r, w2⟩ := rw2
        rw [hput] at h
        cases h
        have hW1 : Wf w1 := by
          rw [hw1]
          exact ⟨hW.1, hW.2, hW.3⟩
        exact wf_putWithGen hW1 hgpos hput
  | putWithGen a i g v =>
    simp only [exec] at h
    split at h
    next hc =>
      cases hput : Allocation.putWithGen w a i g v with
      | none => rw [hput] at h; cases h
      | some rw2 =>
        obtain ⟨r, w2⟩ := rw2
        rw [hput] at h
        cases h
        exact wf_putWithGen hW hc.1 hput
    next hc => cases h
  | take a i =>
    simp only [exec, Allocation.take] at h
    cases hrep : Generational.replace w (a, i) none with
    | none => rw [hrep] at h; cases h
    | some res =>
      obtain ⟨old, w1⟩ := res
      rw [hrep] at h
      cases h
      exact wf_replace_none hW hrep
  | tryWrite r v =>
    simp only [exec] at h
    cases htw : r.tryWrite w v with
    | none => rw [htw] at h; cases h; exact hW
    | some res =>
      obtain ⟨old, w1⟩ := res
      rw [htw] at h
      cases h
      obtain ⟨-, -, hw1⟩ := tryWrite_spec htw
      rw [hw1]
      exact wf_writeVal hW r.value v
  | destroy r =>
    cases h
    exact wf_tryDestroy hW r
  | dealloc a =>
    simp only [exec, Allocation.dealloc] at h
    split at h
    next hc =>
      cases hdf : Allocation.deallocFrom a w 0 ((w.heap a).len) with
      | none => rw [hdf] at h; cases h
      | some w1 =>
        rw [hdf] at h
        cases h
        exact wf_deallocFrom _ w 0 w1 hW hdf
    next hc => cases h

theorem wf_initWorld (V : Type) : Wf (initWorld V) := by
  constructor
  · intro g p hg
    cases hg
  · intro p s hp
    unfold initWorld World.getSlot at hp
    simp at hp
  · intro p s hp
    unfold initWorld World.getSlot at hp
    simp at hp

theorem wf_execTrace {w w' : World V} {ops : List (Op V)}
    (hW : Wf w) (h : execTrace w ops = some w') : Wf w' := by
  induction ops generalizing w with
  | nil => cases h; exact hW
  | cons op ops ih =>
    unfold execTrace at h
    cases hx : exec w op with
    | none => rw [hx] at h; cases h
    | some w1 =>
      rw [hx] at h
      exact ih (wf_exec hW hx) h

theorem wf_reachable {w : World V} (h : Reachable w) : Wf w := by
  obtain ⟨ops, hops⟩ := h
  exact wf_execTrace (wf_initWorld V) hops

end Bees

namespace Bees

theorem deallocFrom_spec (a : Nat) (fuel : Nat) :
    ∀ (w : World V) (j : Nat),
      (∀ k, j ≤ k → k < j + fuel → (w.getSlot (a, k)).isSome = true) →
      ∃ w', Allocation.deallocFrom a w j fuel = some w' ∧
        w'.genCtr = w.genCtr ∧ w'.heapLen = w.heapLen ∧
        (∀ b, (w'.heap b).len = (w.heap b).len) ∧
        (∀ q : Addr, q.1 ≠ a ∨ q.2 < j ∨ j + fuel ≤ q.2 → w'.getSlot q = w.getSlot q) ∧
        (∀ k, j ≤ k → k < j + fuel → ∃ s, w'.getSlot (a, k) = some s ∧ s.gen = 0) ∧
        (∀ g, w.db g = none → w'.db g = none) := by
  induction fuel with
  | zero =>
    intro w j hvalid
    exact ⟨w, rfl, rfl, rfl, fun b => rfl, fun q hq => rfl,
      fun k hk1 hk2 => absurd hk2 (by omega), fun g hg => hg⟩
  | succ fuel ih =>
    intro w j hvalid
    have hj : (w.getSlot (a, j)).isSome = true := hvalid j le_rfl (by omega)
    obtain ⟨s, hs⟩ := Option.isSome_iff_exists.mp hj
    have hrep : Generational.replace w (a, j) none =
        some (if s.isFull then s.val else none,
          World.setSlot { w with db := if s.isFull then dbRemove w.db s.gen else w.db } (a, j)
            ⟨0, s.val⟩) := by
      unfold Generational.replace
      rw [hs]
    have hvalid1 : ∀ k, j + 1 ≤ k → k < (j + 1) + fuel →
        ((World.setSlot { w with db := if s.isFull then dbRemove w.db s.gen else w.db } (a, j)
          ⟨0, s.val⟩).getSlot (a, k)).isSome = true := by
      intro k hk1 hk2
      rw [getSlot_setSlot, if_neg (by simp [Prod.ext_iff]; omega), getSlot_setDb]
      exact hvalid k (by omega) (by omega)
    obtain ⟨w', hdf, hctr, hlen, hlens, hframe, hzero, hdb⟩ :=
      ih (World.setSlot { w with db := if s.isFull then dbRemove w.db s.gen else w.db } (a, j)
        ⟨0, s.val⟩) (j + 1) hvalid1
    refine ⟨w', ?_, ?_, ?_, ?_, ?_, ?_, ?_⟩
    · unfold Allocation.deallocFrom
      rw [hrep]
      exact hdf
    · rw [hctr]; rfl
    · rw [hlen]; rfl
    · intro b
      rw [hlens b, setSlot_len]
    · intro q hq
      have hq1 : q.1 ≠ a ∨ q.2 < j + 1 ∨ (j + 1) + fuel ≤ q.2 := by
        rcases hq with h | h | h
        · exact Or.inl h
        · exact Or.inr (Or.inl (by omega))
        · exact Or.inr (Or.inr (by omega))
      rw [hframe q hq1, getSlot_setSlot]
      have hqj : q ≠ (a, j) := by
        rcases hq with h | h | h
        · intro hh; rw [hh] at h; exact h rfl
        · intro hh; rw [hh] at h; omega
        · intro hh; rw [hh] at h; omega
      rw [if_neg hqj, getSlot_setDb]
    · intro k hk1 hk2
      by_cases hkj : k = j
      · subst hkj
        refine ⟨⟨0, s.val⟩, ?_, rfl⟩
        rw [hframe (a, k) (Or.inr (Or.inl (by omega))), getSlot_setSlot, if_pos rfl,
          getSlot_setDb, hs, Option.map_some']
      · exact hzero k (by omega) (by omega)
    · intro g hg
      refine hdb g ?_
      show (if s.isFull then dbRemove w.db s.gen else w.db) g = none
      by_cases hf : s.isFull = true
      · rw [if_pos hf]
        unfold dbRemove
        by_cases hgs : g = s.gen
        · rw [if_pos hgs]
        · rw [if_neg hgs]; exact hg
      · rw [if_neg hf]; exact hg

theorem dealloc_spec {w : World V} {a : Nat} (ha : a < w.heapLen) :
    ∃ w', Allocation.dealloc w a = some w' ∧
      w'.genCtr = w.genCtr ∧ w'.heapLen = w.heapLen ∧
      (∀ b, (w'.heap b).len = (w.heap b).len) ∧
      (∀ q : Addr, q.1 ≠ a → w'.getSlot q = w.getSlot q) ∧
      (∀ k, k < (w.heap a).len → ∃ s, w'.getSlot (a, k) = some s ∧ s.gen = 0) ∧
      (∀ k, (w.heap a).len ≤ k → w'.getSlot (a, k) = w.getSlot (a, k)) ∧
      (∀ g, w.db g = none → w'.db g = none) := by
  have hvalid : ∀ k, 0 ≤ k → k < 0 + (w.heap a).len → ((w.getSlot (a, k)).isSome = true) := by
    intro k hk0 hk
    unfold World.getSlot
    have hcond : (a, k).1 < w.heapLen ∧ (a, k).2 < (w.heap (a, k).1).len :=
      ⟨ha, by simpa using hk⟩
    rw [if_pos hcond]
    rfl
  obtain ⟨w', hdf, hctr, hlen, hlens, hframe, hzero, hdb⟩ :=
    deallocFrom_spec a ((w.heap a).len) w 0 hvalid
  refine ⟨w', ?_, hctr, hlen, hlens, ?_, ?_, ?_, hdb⟩
  · unfold Allocation.dealloc
    rw [if_pos ha, hdf]
    rfl
  · intro q hq
    exact hframe q (Or.inl hq)
  · intro k hk
    exact hzero k (by omega) (by omega)
  · intro k hk
    exact hframe (a, k) (Or.inr (Or.inr (by omega)))

end Bees

namespace Bees

/-! ### Frame lemmas for the individual operations -/

theorem u64Size_pos : 0 < u64Size := by
  unfold u64Size
  positivity

theorem putWithGen_spec {w : World V} {a i g : Nat} {v : V} {r : Ref Addr} {w' : World V}
    (h : Allocation.putWithGen w a i g v = some (r, w')) :
    r = ⟨(a, i), g, (a, i)⟩ ∧
    w'.genCtr = w.genCtr ∧ w'.heapLen = w.heapLen ∧
    (∀ b, (w'.heap b).len = (w.heap b).len) ∧
    w'.getSlot (a, i) = some ⟨g, some v⟩ ∧
    (∀ q : Addr, q ≠ (a, i) → w'.getSlot q = w.getSlot q) := by
  unfold Allocation.putWithGen at h
  cases hrep : Generational.replace w (a, i) (some (g, v)) with
  | none => rw [hrep] at h; cases h
  | some res =>
    obtain ⟨old, w2⟩ := res
    rw [hrep] at h
    cases h
    obtain ⟨s, hs, -, -, hw2⟩ := replace_put_spec hrep
    subst hw2
    refine ⟨rfl, rfl, rfl, fun b => setSlot_len _ _ _ b, ?_, ?_⟩
    · rw [getSlot_setSlot, if_pos rfl, getSlot_setDb, hs, Option.map_some']
    · intro q hq
      rw [getSlot_setSlot, if_neg hq, getSlot_setDb]

theorem take_spec {w : World V} {a i : Nat} {old : Option V} {w' : World V}
    (h : Allocation.take w a i = some (old, w')) :
    w'.genCtr = w.genCtr ∧ w'.heapLen = w.heapLen ∧
    (∀ b, (w'.heap b).len = (w.heap b).len) ∧
    (∃ s, w.getSlot (a, i) = some s ∧ w'.getSlot (a, i) = some ⟨0, s.val⟩) ∧
    (∀ q : Addr, q ≠ (a, i) → w'.getSlot q = w.getSlot q) := by
  unfold Allocation.take at h
  obtain ⟨s, hs, -, hw'⟩ := replace_none_spec h
  subst hw'
  refine ⟨rfl, rfl, fun b => setSlot_len _ _ _ b, ⟨s, hs, ?_⟩, ?_⟩
  · rw [getSlot_setSlot, if_pos rfl, getSlot_setDb, hs, Option.map_some']
  · intro q hq
    rw [getSlot_setSlot, if_neg hq, getSlot_setDb]

theorem writeVal_genCtr (w : World V) (p : Addr) (v : V) :
    (w.writeVal p v).genCtr = w.genCtr := by
  unfold World.writeVal
  cases hs : w.getSlot p <;> rfl

theorem writeVal_gen (w : World V) (p : Addr) (v : V) (q : Addr) :
    ((w.writeVal p v).getSlot q).map Generational.gen =
      (w.getSlot q).map Generational.gen := by
  unfold World.writeVal
  cases hs : w.getSlot p with
  | none => rfl
  | some s =>
    rw [getSlot_setSlot]
    by_cases hqp : q = p
    · rw [if_pos hqp, hqp, hs]
      rfl
    · rw [if_neg hqp]

theorem isAlive_eq_of_gen_eq {w w' : World V} {r : Ref π}
    (h : (w'.getSlot r.genPtr).map Generational.gen =
      (w.getSlot r.genPtr).map Generational.gen) :
    r.isAlive w' = r.isAlive w := by
  unfold Ref.isAlive
  cases h1 : w'.getSlot r.genPtr with
  | none =>
    cases h2 : w.getSlot r.genPtr with
    | none => rfl
    | some s2 => rw [h1, h2] at h; cases h
  | some s1 =>
    cases h2 : w.getSlot r.genPtr with
    | none => rw [h1, h2] at h; cases h
    | some s2 =>
      rw [h1, h2] at h
      simp only [Option.map_some', Option.some.injEq] at h
      show (r.gen == s1.gen) = (r.gen == s2.gen)
      rw [h]

end Bees

namespace Bees

/-- One public-API step can never resurrect a reference protected by
`StaysDead`, as long as the step does not re-register the reference's own
generation through `put_with_gen`. -/
theorem staysDead_exec {r : Ref π} {w w' : World V} {op : Op V}
    (hg : 0 < r.gen) (hD : StaysDead r w)
    (hop : ∀ a i v, op ≠ Op.putWithGen a i r.gen v)
    (h : exec w op = some w') : StaysDead r w' := by
  obtain ⟨hdead, hctr, hbound⟩ := hD
  cases op with
  | newAlloc len =>
    cases h
    refine ⟨?_, hctr, hbound⟩
    rw [isAlive_false_iff] at hdead ⊢
    intro s hs
    rw [show Allocation.new w len = dbAlloc w len from rfl, getSlot_dbAlloc] at hs
    by_cases h1 : r.genPtr.1 = w.heapLen
    · rw [if_pos h1] at hs
      by_cases h2 : r.genPtr.2 < len
      · rw [if_pos h2] at hs
        cases hs
        intro hcon
        rw [Generational.newEmpty] at hcon
        simp at hcon
        omega
      · rw [if_neg h2] at hs
        cases hs
    · rw [if_neg h1] at hs
      exact hdead s hs
  | put a i v =>
    simp only [exec, Allocation.put] at h
    cases hdb : dbGen w with
    | none => rw [hdb] at h; cases h
    | some gw =>
      obtain ⟨g, w1⟩ := gw
      rw [hdb] at h
      simp only [Option.some_bind] at h
      obtain ⟨hgc, hgpos, hw1⟩ := dbGen_spec hdb
      cases hput : Allocation.putWithGen w1 a i g v with
      | none => rw [hput] at h; cases h
      | some rw2 =>
        obtain ⟨r2, w2⟩ := rw2
        rw [hput] at h
        cases h
        obtain ⟨-, hc2, -, -, hslot, hframe⟩ := putWithGen_spec hput
        have hrg : r.gen < w.genCtr := by
          rcases hctr with hlt | h0
          · exact hlt
          · rw [h0] at hgc
            omega
        refine ⟨?_, ?_, ?_⟩
        · rw [isAlive_false_iff]
          intro s hs
          by_cases hqp : r.genPtr = (a, i)
          · rw [hqp, hslot] at hs
            cases hs
            intro hcon
            simp at hcon
            omega
          · rw [hframe r.genPtr hqp, hw1, getSlot_setCtr] at hs
            exact (isAlive_false_iff w r).mp hdead s hs
        · rw [hc2, hw1]
          show r.gen < (w.genCtr + 1) % u64Size ∨ (w.genCtr + 1) % u64Size = 0
          by_cases hend : w.genCtr + 1 = u64Size
          · right
            rw [hend]
            exact Nat.mod_self _
          · left
            rw [Nat.mod_eq_of_lt (by omega)]
            omega
        · rw [hc2, hw1]
          show (w.genCtr + 1) % u64Size < u64Size
          exact Nat.mod_lt _ u64Size_pos
  | putWithGen a i g v =>
    simp only [exec] at h
    split at h
    next hcond =>
      cases hput : Allocation.putWithGen w a i g v with
      | none => rw [hput] at h; cases h
      | some rw2 =>
        obtain ⟨r2, w2⟩ := rw2
        rw [hput] at h
        cases h
        obtain ⟨-, hc2, -, -, hslot, hframe⟩ := putWithGen_spec hput
        have hgne : g ≠ r.gen := by
          intro hcon
          exact hop a i v (by rw [hcon])
        refine ⟨?_, by rw [hc2]; exact hctr, by rw [hc2]; exact hbound⟩
        rw [isAlive_false_iff]
        intro s hs
        by_cases hqp : r.genPtr = (a, i)
        · rw [hqp, hslot] at hs
          cases hs
          intro hcon
          simp at hcon
          exact hgne hcon.symm
        · rw [hframe r.genPtr hqp] at hs
          exact (isAlive_false_iff w r).mp hdead s hs
    next hcond => cases h
  | take a i =>
    simp only [exec] at h
    cases htk : Allocation.take w a i with
    | none => rw [htk] at h; cases h
    | some res =>
      obtain ⟨old, w1⟩ := res
      rw [htk] at h
      cases h
      obtain ⟨hc2, -, -, ⟨s, -, hslot⟩, hframe⟩ := take_spec htk
      refine ⟨?_, by rw [hc2]; exact hctr, by rw [hc2]; exact hbound⟩
      rw [isAlive_false_iff]
      intro s' hs'
      by_cases hqp : r.genPtr = (a, i)
      · rw [hqp, hslot] at hs'
        cases hs'
        intro hcon
        simp at hcon
        omega
      · rw [hframe r.genPtr hqp] at hs'
        exact (isAlive_false_iff w r).mp hdead s' hs'
  | tryWrite r2 v =>
    simp only [exec] at h
    cases htw : r2.tryWrite w v with
    | none => rw [htw] at h; cases h; exact ⟨hdead, hctr, hbound⟩
    | some res =>
      obtain ⟨old, w1⟩ := res
      rw [htw] at h
      cases h
      obtain ⟨-, -, hw1⟩ := tryWrite_spec htw
      subst hw1
      refine ⟨?_, ?_, ?_⟩
      · rw [isAlive_eq_of_gen_eq (writeVal_gen w r2.value v r.genPtr)]
        exact hdead
      · rw [writeVal_genCtr]
        exact hctr
      · rw [writeVal_genCtr]
        exact hbound
  | destroy r2 =>
    cases h
    unfold Ref.tryDestroy
    by_cases ha : r2.isAlive w = true
    · rw [if_pos ha]
      obtain ⟨s, hs, hgen⟩ := (isAlive_true_iff w r2).mp ha
      refine ⟨?_, hctr, hbound⟩
      rw [isAlive_false_iff]
      intro s' hs'
      rw [getSlot_setSlot] at hs'
      by_cases hqp : r.genPtr = r2.genPtr
      · rw [if_pos hqp, getSlot_setDb, hs, Option.map_some'] at hs'
        cases hs'
        intro hcon
        simp at hcon
        omega
      · rw [if_neg hqp, getSlot_setDb] at hs'
        exact (isAlive_false_iff w r).mp hdead s' hs'
    · rw [if_neg ha]
      exact ⟨hdead, hctr, hbound⟩
  | dealloc a =>
    have hd : Allocation.dealloc w a = some w' := h
    have hlt : a < w.heapLen := by
      by_contra hlt
      unfold Allocation.dealloc at hd
      rw [if_neg hlt] at hd
      cases hd
    obtain ⟨w2, hdf2, hctr2, hlen2, hlens2, hframe2, hzero2, hout2, hdb2⟩ := dealloc_spec hlt
    rw [hd] at hdf2
    cases hdf2
    refine ⟨?_, by rw [hctr2]; exact hctr, by rw [hctr2]; exact hbound⟩
    rw [isAlive_false_iff]
    intro s hs
    by_cases hq1 : r.genPtr.1 = a
    · by_cases hq2 : r.genPtr.2 < (w.heap a).len
      · obtain ⟨s', hs', hgen'⟩ := hzero2 r.genPtr.2 hq2
        have hpr : (a, r.genPtr.2) = r.genPtr := by
          rw [← hq1]
        rw [hpr] at hs'
        rw [hs'] at hs
        cases hs
        omega
      · have hpr : (a, r.genPtr.2) = r.genPtr := by
          rw [← hq1]
        have := hout2 r.genPtr.2 (by omega)
        rw [hpr] at this
        rw [this] at hs
        exact (isAlive_false_iff w r).mp hdead s hs
    · rw [hframe2 r.genPtr hq1] at hs
      exact (isAlive_false_iff w r).mp hdead s hs

end Bees

namespace Bees

/-- `StaysDead` persists along any trace that never re-registers the
reference's generation through `put_with_gen`. -/
theorem staysDead_execTrace {r : Ref π} {w w' : World V} {ops : List (Op V)}
    (hg : 0 < r.gen) (hD : StaysDead r w)
    (hops : ∀ o ∈ ops, ∀ a i v, o ≠ Op.putWithGen a i r.gen v)
    (h : execTrace w ops = some w') : StaysDead r w' := by
  induction ops generalizing w with
  | nil => cases h; exact hD
  | cons op ops ih =>
    unfold execTrace at h
    cases hx : exec w op with
    | none => rw [hx] at h; cases h
    | some w1 =>
      rw [hx] at h
      exact ih (staysDead_exec hg hD (hops op (by simp)) hx)
        (fun o ho => hops o (by simp [ho])) h

/-- A clearing operation (`take`, `dealloc`, or a successful `destroy`) on a
reference's slot leaves that reference dead. -/
theorem clears_kills {r : Ref π} {w w' : World V} {op : Op V}
    (hg : 0 < r.gen) (hcl : clearsSlot op w r.genPtr) (h : exec w op = some w') :
    r.isAlive w' = false := by
  rcases hcl with hcl | hcl | ⟨r2, hcl, hp2, ha2, -⟩
  · subst hcl
    simp only [exec] at h
    cases htk : Allocation.take w r.genPtr.1 r.genPtr.2 with
    | none => rw [htk] at h; cases h
    | some res =>
      obtain ⟨old, w1⟩ := res
      rw [htk] at h
      cases h
      obtain ⟨-, -, -, ⟨s, -, hslot⟩, -⟩ := take_spec htk
      rw [isAlive_false_iff]
      intro s' hs'
      have hpr : (r.genPtr.1, r.genPtr.2) = r.genPtr := rfl
      rw [hpr] at hslot
      rw [hslot] at hs'
      cases hs'
      intro hcon
      simp at hcon
      omega
  · subst hcl
    have hd : Allocation.dealloc w r.genPtr.1 = some w' := h
    have hlt : r.genPtr.1 < w.heapLen := by
      by_contra hlt
      unfold Allocation.dealloc at hd
      rw [if_neg hlt] at hd
      cases hd
    obtain ⟨w2, hdf2, -, -, -, hframe2, hzero2, hout2, -⟩ := dealloc_spec hlt
    rw [hd] at hdf2
    cases hdf2
    rw [isAlive_false_iff]
    intro s hs
    have hpr : (r.genPtr.1, r.genPtr.2) = r.genPtr := rfl
    by_cases hq2 : r.genPtr.2 < (w.heap r.genPtr.1).len
    · obtain ⟨s', hs', hgen'⟩ := hzero2 r.genPtr.2 hq2
      rw [hpr] at hs'
      rw [hs'] at hs
      cases hs
      omega
    · have hnone : w.getSlot r.genPtr = none := by
        unfold World.getSlot
        rw [if_neg]
        intro hcon
        exact hq2 hcon.2
      have := hout2 r.genPtr.2 (by omega)
      rw [hpr] at this
      rw [this, hnone] at hs
      cases hs
  · subst hcl
    cases h
    unfold Ref.tryDestroy
    rw [if_pos ha2]
    obtain ⟨s, hs, hgen⟩ := (isAlive_true_iff w r2).mp ha2
    rw [isAlive_false_iff]
    intro s' hs'
    rw [getSlot_setSlot, hp2] at hs'
    by_cases hqp : r.genPtr = r.genPtr
    · rw [if_pos hqp, getSlot_setDb] at hs'
      have hs3 : w.getSlot r.genPtr = some s := by rw [← hp2]; exact hs
      rw [hs3, Option.map_some'] at hs'
      cases hs'
      intro hcon
      simp at hcon
      omega
    · exact absurd rfl hqp

/-- Clearing operations do not touch the generation counter. -/
theorem clears_genCtr {p : Addr} {op : Op V} {w w' : World V}
    (hcl : clearsSlot op w p) (h : exec w op = some w') :
    w'.genCtr = w.genCtr := by
  rcases hcl with hcl | hcl | ⟨r2, hcl, -, -, -⟩
  · subst hcl
    simp only [exec] at h
    cases htk : Allocation.take w p.1 p.2 with
    | none => rw [htk] at h; cases h
    | some res =>
      obtain ⟨old, w1⟩ := res
      rw [htk] at h
      cases h
      exact (take_spec htk).1
  · subst hcl
    have hd : Allocation.dealloc w p.1 = some w' := h
    have hlt : p.1 < w.heapLen := by
      by_contra hlt
      unfold Allocation.dealloc at hd
      rw [if_neg hlt] at hd
      cases hd
    obtain ⟨w2, hdf2, hctr2, -⟩ := dealloc_spec hlt
    rw [hd] at hdf2
    cases hdf2
    exact hctr2
  · subst hcl
    cases h
    unfold Ref.tryDestroy
    by_cases ha : r2.isAlive w = true
    · rw [if_pos ha]
      rfl
    · rw [if_neg ha]

end Bees


namespace Bees

/-! ### Further helper lemmas for the claims -/

theorem tryWrite_eq_some {w : World V} {r : Ref Addr} {v o : V}
    (ha : r.isAlive w = true) (ho : w.readVal r.value = some o) :
    r.tryWrite w v = some (o, w.writeVal r.value v) := by
  unfold Ref.tryWrite Ref.tryGet
  rw [if_pos ha]
  simp only [Option.some_bind, Ref.getUnchecked]
  rw [ho]
  rfl

theorem getSlot_writeVal_self {w : World V} {p : Addr} {s : Generational V} (v : V)
    (hs : w.getSlot p = some s) :
    (w.writeVal p v).getSlot p = some ⟨s.gen, some v⟩ := by
  have hwv : w.writeVal p v = w.setSlot p ⟨s.gen, some v⟩ := by
    simp only [World.writeVal, hs]
  rw [hwv, getSlot_setSlot, if_pos rfl, hs, Option.map_some']

theorem putWithGen_succeeds {w : World V} {a i g : Nat} {v : V} {s : Generational V}
    (hs : w.getSlot (a, i) = some s) (hsgen : s.gen = 0) (hdb : w.db g = none) :
    Allocation.putWithGen w a i g v =
      some (⟨(a, i), g, (a, i)⟩,
        World.setSlot { w with db := dbInsert w.db g (a, i) } (a, i) ⟨g, some v⟩) := by
  have hf : s.isFull = false := by
    simp [Generational.isFull, hsgen]
  have hrep : Generational.replace w (a, i) (some (g, v)) =
      some (none,
        World.setSlot { w with db := dbInsert w.db g (a, i) } (a, i) ⟨g, some v⟩) := by
    simp only [Generational.replace, hs, hf, Bool.false_eq_true, if_false, hdb]
  unfold Allocation.putWithGen
  rw [hrep]
  rfl

theorem putWithGen_none_iff {w : World V} {a : Nat} (i g : Nat) (v : V)
    (hW : Wf w) (ha : a < w.heapLen) :
    Allocation.putWithGen w a i g v = none ↔
      (w.heap a).len ≤ i ∨ ∃ q, w.db g = some q ∧ q ≠ (a, i) := by
  constructor
  · intro h
    unfold Allocation.putWithGen at h
    cases hrep : Generational.replace w (a, i) (some (g, v)) with
    | some res => rw [hrep] at h; cases h
    | none =>
      cases hs : w.getSlot (a, i) with
      | none =>
        left
        unfold World.getSlot at hs
        by_contra hlen
        rw [if_pos ⟨ha, by simpa using (show i < (w.heap a).len by omega)⟩] at hs
        cases hs
      | some s =>
        right
        cases hdb : (if s.isFull then dbRemove w.db s.gen else w.db) g with
        | none => simp [Generational.replace, hs, hdb] at hrep
        | some q =>
          obtain ⟨hq, hqne⟩ := db1_some hW hs hdb
          exact ⟨q, hq, hqne⟩
  · intro h
    unfold Allocation.putWithGen
    rcases h with hlen | ⟨q, hq, hqne⟩
    · have hs : w.getSlot (a, i) = none := by
        unfold World.getSlot
        rw [if_neg]
        intro hcon
        simp at hcon
        omega
      have hrep : Generational.replace w (a, i) (some (g, v)) = none := by
        simp only [Generational.replace, hs]
      rw [hrep]
      rfl
    · by_cases hi : i < (w.heap a).len
      · have hs : w.getSlot (a, i) = some ((w.heap a).slots i) := by
          unfold World.getSlot
          rw [if_pos ⟨ha, hi⟩]
      
        have hkeep := db1_keep hW hs hq hqne
        have hrep : Generational.replace w (a, i) (some (g, v)) = none := by
          simp only [Generational.replace, hs, hkeep]
        rw [hrep]
        rfl
      · have hs : w.getSlot (a, i) = none := by
          unfold World.getSlot
          rw [if_neg]
          intro hcon
          exact hi hcon.2
        have hrep : Generational.replace w (a, i) (some (g, v)) = none := by
          simp only [Generational.replace, hs]
        rw [hrep]
        rfl

end Bees

namespace Bees

/-! ### The claims -/

/-- C2 (amended: the allocator's first value is `1`, not `≥ 2`): from any
state whose counter `c` is nonzero and does not wrap within `n` calls, `n`
successive `db::gen` calls succeed and return `c, c+1, …, c+n-1` — each
value strictly greater than every previously returned one, never `0`, and
every issued value is `≥ 1`. -/
theorem C2_gen_monotone_increasing (w : World V) (n : Nat)
    (h0 : 0 < w.genCtr) (h1 : w.genCtr + n ≤ u64Size) :
    ∃ w', genCalls w n = some (List.range' w.genCtr n, w') ∧
      (List.range' w.genCtr n).Pairwise (· < ·) ∧
      ∀ g ∈ List.range' w.genCtr n, 0 < g := by
  induction n generalizing w with
  | zero => exact ⟨w, rfl, by simp, by simp⟩
  | succ n ih =>
    have hc : ¬ w.genCtr = 0 := by omega
    have hdb : dbGen w = some (w.genCtr, { w with genCtr := (w.genCtr + 1) % u64Size }) := by
      simp only [dbGen]
      rw [if_neg hc]
    by_cases hend : w.genCtr + 1 = u64Size
    · have hn : n = 0 := by omega
      subst hn
      refine ⟨{ w with genCtr := (w.genCtr + 1) % u64Size }, ?_, ?_, ?_⟩
      · unfold genCalls
        rw [hdb]
        simp [genCalls, List.range']
      · exact List.pairwise_lt_range' _ _
      · intro g hg
        rw [List.mem_range'_1] at hg
        omega
    · have hmod : (w.genCtr + 1) % u64Size = w.genCtr + 1 := Nat.mod_eq_of_lt (by omega)
      have h0' : 0 < ({ w with genCtr := (w.genCtr + 1) % u64Size } : World V).genCtr := by
        show 0 < (w.genCtr + 1) % u64Size
        rw [hmod]
        omega
      have h1' : ({ w with genCtr := (w.genCtr + 1) % u64Size } : World V).genCtr + n ≤ u64Size := by
        show (w.genCtr + 1) % u64Size + n ≤ u64Size
        rw [hmod]
        omega
      obtain ⟨w', hgc, -, -⟩ := ih { w with genCtr := (w.genCtr + 1) % u64Size } h0' h1'
      refine ⟨w', ?_, List.pairwise_lt_range' _ _, ?_⟩
      · unfold genCalls
        rw [hdb]
        simp only [Option.some_bind]
        rw [hgc]
        simp only [Option.map_some']
        have hr : List.range' w.genCtr (n + 1) = w.genCtr :: List.range' (w.genCtr + 1) n :=
          List.range'_succ _ _ _
        rw [hr]
        show some (w.genCtr :: List.range' ((w.genCtr + 1) % u64Size) n, w') = _
        rw [hmod]
      · intro g hg
        rw [List.mem_range'_1] at hg
        omega

/-- Witness for C2: three calls from program start return `[1, 2, 3]`. -/
theorem C2_gen_monotone_increasing_witness :
    ∃ w', genCalls (initWorld Nat) 3 = some (List.range' 1 3, w') ∧
      (List.range' 1 3).Pairwise (· < ·) ∧ ∀ g ∈ List.range' 1 3, 0 < g :=
  C2_gen_monotone_increasing (initWorld Nat) 3 (by decide)
    (by show 1 + 3 ≤ u64Size; unfold u64Size; omega)

/-- C2 counterexample: the very first allocator call from program start
returns `1`, which is less than `2`, refuting "every value it issues is
≥ 2". -/
theorem C2_counterexample :
    (genCalls (initWorld Nat) 1).map (fun p => p.1) = some [1] ∧ (1 : Nat) < 2 :=
  ⟨rfl, by omega⟩

/-- C1 (amended): after a slot is cleared by `take`, arena `dealloc`, or a
successful `destroy`, a reference `r` into that slot is dead and stays dead
along every later operation sequence, provided `r`'s generation was issued
below the current allocator counter and no later `put_with_gen` supplies
exactly `r`'s generation.  (Without those provisos the claim is false —
`C1_counterexample` revives a reference via `put_with_gen`.) -/
theorem C1_dead_forever {r : Ref π} {w w1 w2 : World V} {op : Op V}
    {ops : List (Op V)}
    (hg : 0 < r.gen) (hctr : r.gen < w.genCtr ∨ w.genCtr = 0)
    (hbound : w.genCtr < u64Size)
    (hcl : clearsSlot op w r.genPtr) (hex : exec w op = some w1)
    (hops : ∀ o ∈ ops, ∀ a i v, o ≠ Op.putWithGen a i r.gen v)
    (htr : execTrace w1 ops = some w2) :
    r.isAlive w1 = false ∧ r.isAlive w2 = false := by
  have h1 : r.isAlive w1 = false := clears_kills hg hcl hex
  have hctr1 : w1.genCtr = w.genCtr := clears_genCtr hcl hex
  have hD : StaysDead r w1 :=
    ⟨h1, by rw [hctr1]; exact hctr, by rw [hctr1]; exact hbound⟩
  exact ⟨h1, (staysDead_execTrace hg hD hops htr).1⟩

/-- C1 counterexample: `sampleRef` (generation 5, slot 0) is alive, dies
when its slot is taken, and becomes alive again after a later
`put_with_gen(0, 5, 20)` on the same index — refuting "is_alive returns
false forever afterwards (including later put or put_with_gen calls on the
same index)". -/
theorem C1_counterexample :
    execTrace (initWorld Nat) sampleTrace1 = some sampleW1 ∧
    Ref.isAlive sampleW1 sampleRef = true ∧
    execTrace sampleW1 [Op.take 0 0] = some sampleDeadW ∧
    Ref.isAlive sampleDeadW sampleRef = false ∧
    execTrace sampleDeadW [Op.putWithGen 0 0 5 20] = some sampleRevivedW ∧
    Ref.isAlive sampleRevivedW sampleRef = true :=
  ⟨rfl, by decide, rfl, by decide, rfl, by decide⟩

end Bees

namespace Bees

/-- Witness for C1: the reference from `put` (generation 1, counter now 2)
dies at `take(0)` and stays dead across a later `put` on the same index. -/
theorem C1_dead_forever_witness :
    Ref.isAlive sampleDead2 sampleRef2 = false ∧
    Ref.isAlive ((execTrace sampleDead2 [Op.put 0 0 7]).getD (initWorld Nat)) sampleRef2
      = false :=
  @C1_dead_forever Addr Nat sampleRef2 sampleW2 sampleDead2
    ((execTrace sampleDead2 [Op.put 0 0 7]).getD (initWorld Nat))
    (Op.take 0 0) [Op.put 0 0 7]
    (by decide) (Or.inl (by decide)) (by decide)
    (Or.inl rfl) rfl
    (by
      intro o ho a i v
      simp only [List.mem_singleton] at ho
      subst ho
      intro hcon
      cases hcon)
    rfl

end Bees

namespace Bees

/-- C7: in every reachable state, two live references with equal nonzero
generations point at the same slot: the generation→slot side index never
holds the same generation for two slots. -/
theorem C7_live_gen_unique {w : World V} (hreach : Reachable w)
    (r1 : Ref π) (r2 : Ref ρ) (hg : 0 < r1.gen) (hgen : r1.gen = r2.gen)
    (h1 : r1.isAlive w = true) (h2 : r2.isAlive w = true) :
    r1.genPtr = r2.genPtr := by
  have hW := wf_reachable hreach
  obtain ⟨s1, hs1, hg1⟩ := (isAlive_true_iff w r1).mp h1
  obtain ⟨s2, hs2, hg2⟩ := (isAlive_true_iff w r2).mp h2
  have hb1 := hW.slotToDb r1.genPtr s1 hs1 (by omega)
  have hb2 := hW.slotToDb r2.genPtr s2 hs2 (by omega)
  rw [← hg1] at hb1
  rw [← hg2] at hb2
  rw [← hgen] at hb2
  rw [hb1] at hb2
  exact Option.some.inj hb2

/-- Witness for C7: the reachable state `sampleW1` with the live reference
`sampleRef` on both sides. -/
theorem C7_live_gen_unique_witness :
    Ref.isAlive sampleW1 sampleRef = true ∧ sampleRef.genPtr = sampleRef.genPtr :=
  ⟨by decide,
    C7_live_gen_unique ⟨sampleTrace1, rfl⟩ sampleRef sampleRef (by decide) rfl
      (by decide) (by decide)⟩

/-- C3 (amended): `subfield_unchecked` copies the parent's liveness gate
verbatim, so the projected reference's `is_alive` equals the parent's in
every state; the user-facing `subfield!` projection, however, validates the
parent at projection time — it panics on a dead parent (projection succeeds
iff the parent is alive) — and a successfully projected reference shares
the parent's liveness gate in all later states. -/
theorem C3_subfield_liveness (w : World V) (r : Ref π) (p : ρ) (f : π → ρ) :
    ((r.subfieldUnchecked p).isAlive w = r.isAlive w) ∧
    ((subfield w r f).isSome = true ↔ r.isAlive w = true) ∧
    (∀ r2, subfield w r f = some r2 → ∀ w2 : World V, r2.isAlive w2 = r.isAlive w2) := by
  refine ⟨rfl, ?_, ?_⟩
  · unfold subfield Ref.getForProjection Ref.get Ref.tryGet
    by_cases ha : r.isAlive w = true
    · rw [if_pos ha]
      simp [ha]
    · rw [if_neg ha]
      simp only [Option.map_none', Option.isSome_none]
      constructor
      · intro hcon
        cases hcon
      · intro hcon
        exact absurd hcon ha
  · intro r2 h2 w2
    unfold subfield Ref.getForProjection Ref.get Ref.tryGet at h2
    by_cases ha : r.isAlive w = true
    · rw [if_pos ha] at h2
      simp only [Option.map_some'] at h2
      cases h2
      rfl
    · rw [if_neg ha] at h2
      cases h2

/-- Witness for C3: the live parent `sampleRef` in `sampleW1`, projecting
with the identity field map. -/
theorem C3_subfield_liveness_witness :
    ((sampleRef.subfieldUnchecked ((0, 0) : Addr)).isAlive sampleW1
        = sampleRef.isAlive sampleW1) ∧
    ((subfield sampleW1 sampleRef (fun q => q)).isSome = true ↔
      sampleRef.isAlive sampleW1 = true) ∧
    (∀ r2, subfield sampleW1 sampleRef (fun q => q) = some r2 →
      ∀ w2 : World Nat, r2.isAlive w2 = sampleRef.isAlive w2) :=
  C3_subfield_liveness sampleW1 sampleRef (0, 0) (fun q => q)

/-- C3 counterexample: projecting through the `subfield!` macro from the
dead parent `sampleRef` in `sampleDeadW` panics (returns no reference at
all) instead of yielding a constructible-but-dead field reference —
refuting "projection itself never validates liveness". -/
theorem C3_counterexample :
    Ref.isAlive sampleDeadW sampleRef = false ∧
    subfield sampleDeadW sampleRef (fun q => q) = none :=
  ⟨by decide, by decide⟩

/-- C4: the round-trip — whenever `put(i, v)` completes, returning a new
state, `get(i).read()` in that state returns exactly `v`. -/
theorem C4_roundtrip {w : World V} {a i : Nat} {v : V} {r : Ref Addr} {w' : World V}
    (h : Allocation.put w a i v = some (r, w')) :
    (Allocation.get w' a i).bind (fun r2 => Ref.read w' r2) = some v := by
  unfold Allocation.put at h
  cases hdb : dbGen w with
  | none => rw [hdb] at h; cases h
  | some gw =>
    obtain ⟨g, w1⟩ := gw
    rw [hdb] at h
    simp only [Option.some_bind] at h
    obtain ⟨hgc, hgpos, hw1⟩ := dbGen_spec hdb
    obtain ⟨hr, -, -, -, hslot, -⟩ := putWithGen_spec h
    have hfull : (⟨g, some v⟩ : Generational V).isFull = true := by
      simp [Generational.isFull]
      omega
    have htg : Allocation.tryGet w' a i =
        some (some ⟨(a, i), (⟨g, some v⟩ : Generational V).gen, (a, i)⟩) := by
      simp only [Allocation.tryGet, hslot, hfull]
      rfl
    have hget : Allocation.get w' a i =
        some ⟨(a, i), (⟨g, some v⟩ : Generational V).gen, (a, i)⟩ := by
      unfold Allocation.get
      rw [htg]
      rfl
    rw [hget]
    simp only [Option.some_bind]
    have halive : (⟨(a, i), (⟨g, some v⟩ : Generational V).gen, (a, i)⟩ : Ref Addr).isAlive w'
        = true := by
      rw [isAlive_true_iff]
      exact ⟨⟨g, some v⟩, hslot, rfl⟩
    unfold Ref.read Ref.tryRead Ref.tryGet
    rw [if_pos halive]
    simp only [Option.some_bind, Ref.getUnchecked]
    unfold World.readVal
    rw [hslot]
    rfl

/-- Witness for C4: `put(0, 42)` on `sampleW1` followed by `get(0).read()`
returns `42`. -/
theorem C4_roundtrip_witness :
    (Allocation.get ((Allocation.put sampleW1 0 0 42).getD (sampleRef, sampleW1)).2 0 0).bind
      (fun r2 =>
        Ref.read ((Allocation.put sampleW1 0 0 42).getD (sampleRef, sampleW1)).2 r2)
      = some 42 :=
  C4_roundtrip (show Allocation.put sampleW1 0 0 42 =
    some (((Allocation.put sampleW1 0 0 42).getD (sampleRef, sampleW1)).1,
      ((Allocation.put sampleW1 0 0 42).getD (sampleRef, sampleW1)).2) from rfl)

end Bees

namespace Bees

/-- C5 (amended): of the three unimplemented paths, arena reallocation
(`db::realloc`, a `todo!()`) and movable-reference repair on a stale
reference (`repair_resolve_prim`, a `todo!()`) surface explicit panics,
while storage-reclaiming deallocation (`db::dealloc`, an empty body) is a
silent no-op that leaks the storage rather than failing; none of the three
touches any slot.  A still-alive `repair_resolve` simply returns the
recorded location. -/
theorem C5_unimplemented_paths (w : World V) (a size : Nat) (m : MovableRef π) :
    dbRealloc w a size = none ∧
    (m.forceResolvePrim.isAlive w = false → m.repairResolvePrim w = none) ∧
    (m.forceResolvePrim.isAlive w = true →
      m.repairResolvePrim w = some m.forceResolvePrim) ∧
    dbDealloc w a = w := by
  refine ⟨rfl, ?_, ?_, rfl⟩
  · intro h
    simp only [MovableRef.repairResolvePrim]
    rw [if_neg]
    rw [h]
    exact Bool.false_ne_true
  · intro h
    simp only [MovableRef.repairResolvePrim]
    rw [if_pos h]

/-- Witness for C5: concrete calls on `sampleW1` — `realloc` and stale
repair fail, live repair resolves, `db::dealloc` returns the state
unchanged. -/
theorem C5_unimplemented_paths_witness :
    dbRealloc sampleW1 0 4 = none ∧
    MovableRef.repairResolvePrim sampleW1 sampleStaleMov = none ∧
    MovableRef.repairResolvePrim sampleW1 sampleMov = some sampleMov.forceResolvePrim ∧
    dbDealloc sampleW1 0 = sampleW1 :=
  ⟨(C5_unimplemented_paths sampleW1 0 4 sampleStaleMov).1,
   (C5_unimplemented_paths sampleW1 0 4 sampleStaleMov).2.1 (by decide),
   (C5_unimplemented_paths sampleW1 0 4 sampleMov).2.2.1 (by decide),
   (C5_unimplemented_paths sampleW1 0 4 sampleMov).2.2.2⟩

/-- C5 counterexample: `db::dealloc` on a concrete state completes without
any failure and changes nothing — a silent no-op, refuting "every call into
one of the unimplemented paths surfaces an explicit unsupported-operation
failure; none of them silently does nothing". -/
theorem C5_counterexample : dbDealloc sampleW1 0 = sampleW1 :=
  rfl

/-- C6 (modelled from the spec — `destroy`/`try_destroy` are absent from
the source): `try_destroy` on a live reference reports success, drops the
value in place and demotes the slot to generation `0` (killing the
reference); on an already-dead reference it reports failure and returns the
state unchanged — so a second `try_destroy` is a failing no-op, never a
double-drop and never a panic. -/
theorem C6_try_destroy_idempotent {w : World V} (r : Ref Addr) (hg : 0 < r.gen) :
    (r.isAlive w = false → r.tryDestroy w = (false, w)) ∧
    (r.isAlive w = true →
      (r.tryDestroy w).1 = true ∧
      (r.tryDestroy w).2.getSlot r.genPtr = some ⟨0, none⟩ ∧
      r.isAlive (r.tryDestroy w).2 = false ∧
      Ref.tryDestroy (r.tryDestroy w).2 r = (false, (r.tryDestroy w).2)) := by
  have hdeadcase : ∀ w0 : World V, r.isAlive w0 = false → r.tryDestroy w0 = (false, w0) := by
    intro w0 hdead
    unfold Ref.tryDestroy
    rw [if_neg (by rw [hdead]; exact Bool.false_ne_true)]
  constructor
  · exact hdeadcase w
  · intro ha
    obtain ⟨s, hs, hgen⟩ := (isAlive_true_iff w r).mp ha
    have hd : r.tryDestroy w =
        (true, World.setSlot { w with db := dbRemove w.db r.gen } r.genPtr ⟨0, none⟩) := by
      unfold Ref.tryDestroy
      rw [if_pos ha]
    have hslot : (r.tryDestroy w).2.getSlot r.genPtr = some ⟨0, none⟩ := by
      rw [hd, getSlot_setSlot, if_pos rfl, getSlot_setDb, hs, Option.map_some']
    have hdead2 : r.isAlive (r.tryDestroy w).2 = false := by
      rw [isAlive_false_iff]
      intro s' hs'
      rw [hslot] at hs'
      cases hs'
      intro hcon
      simp at hcon
      omega
    exact ⟨by rw [hd], hslot, hdead2, hdeadcase _ hdead2⟩

/-- Witness for C6: destroying the live `sampleRef` in `sampleW1` succeeds,
empties the slot, kills the reference, and a second destroy is a failing
no-op. -/
theorem C6_try_destroy_idempotent_witness :
    (Ref.isAlive sampleW1 sampleRef = false →
      Ref.tryDestroy sampleW1 sampleRef = (false, sampleW1)) ∧
    (Ref.isAlive sampleW1 sampleRef = true →
      (Ref.tryDestroy sampleW1 sampleRef).1 = true ∧
      (Ref.tryDestroy sampleW1 sampleRef).2.getSlot sampleRef.genPtr = some ⟨0, none⟩ ∧
      Ref.isAlive (Ref.tryDestroy sampleW1 sampleRef).2 sampleRef = false ∧
      Ref.tryDestroy (Ref.tryDestroy sampleW1 sampleRef).2 sampleRef
        = (false, (Ref.tryDestroy sampleW1 sampleRef).2)) :=
  C6_try_destroy_idempotent sampleRef (by decide)

/-- C8 (amended): with a valid arena handle, `put_with_gen` panics exactly
when the index is out of range or the supplied generation is registered to a
slot other than the one being overwritten (re-registering the slot's own
current generation succeeds); `put` panics exactly when the counter is
exhausted, the index is out of range, or the freshly drawn generation is
registered to a different slot.  Both failure modes are panics (`none`),
never recoverable absences. -/
theorem C8_put_fatal_conditions {w : World V} {a : Nat} (i g : Nat) (v : V)
    (hW : Wf w) (ha : a < w.heapLen) :
    (Allocation.putWithGen w a i g v = none ↔
      (w.heap a).len ≤ i ∨ ∃ q, w.db g = some q ∧ q ≠ (a, i)) ∧
    (Allocation.put w a i v = none ↔
      w.genCtr = 0 ∨ (w.heap a).len ≤ i ∨ ∃ q, w.db w.genCtr = some q ∧ q ≠ (a, i)) := by
  refine ⟨putWithGen_none_iff i g v hW ha, ?_⟩
  by_cases hc : w.genCtr = 0
  · have hdb : dbGen w = none := by
      simp only [dbGen]
      rw [if_pos hc]
    unfold Allocation.put
    rw [hdb]
    simp only [Option.none_bind]
    constructor
    · intro h
      exact Or.inl hc
    · intro h
      trivial
  · have hdb : dbGen w = some (w.genCtr, { w with genCtr := (w.genCtr + 1) % u64Size }) := by
      simp only [dbGen]
      rw [if_neg hc]
    unfold Allocation.put
    rw [hdb]
    simp only [Option.some_bind]
    have hW1 : Wf ({ w with genCtr := (w.genCtr + 1) % u64Size } : World V) :=
      ⟨hW.1, hW.2, hW.3⟩
    have hiff := putWithGen_none_iff i w.genCtr v hW1 ha
    constructor
    · intro h
      exact Or.inr (hiff.mp h)
    · intro h
      rcases h with h0 | h2
      · exact absurd h0 hc
      · exact hiff.mpr h2

/-- Witness for C8: `sampleW1` (one slot, generation 5 registered) with a
fresh generation `7` and the counter value. -/
theorem C8_put_fatal_conditions_witness :
    (Allocation.putWithGen sampleW1 0 0 7 (0 : Nat) = none ↔
      (sampleW1.heap 0).len ≤ 0 ∨ ∃ q, sampleW1.db 7 = some q ∧ q ≠ (0, 0)) ∧
    (Allocation.put sampleW1 0 0 (0 : Nat) = none ↔
      sampleW1.genCtr = 0 ∨ (sampleW1.heap 0).len ≤ 0 ∨
        ∃ q, sampleW1.db sampleW1.genCtr = some q ∧ q ≠ (0, 0)) :=
  C8_put_fatal_conditions 0 7 0 (wf_reachable ⟨sampleTrace1, rfl⟩) (by decide)

/-- C8 counterexample: in `sampleW1` generation `5` is registered in the
side index, yet `put_with_gen(0, 5, 20)` on the slot that currently holds
generation `5` succeeds — refuting "put_with_gen fails fatally exactly when
the supplied generation is already registered in the side index". -/
theorem C8_counterexample :
    (sampleW1.db 5).isSome = true ∧
    (Allocation.putWithGen sampleW1 0 0 5 20).isSome = true :=
  ⟨by decide, by decide⟩

end Bees

namespace Bees

/-- C9: for a whole-slot reference (`value` pointer = slot pointer) in a
well-formed state: `write` is `try_write` with a panic on absence;
`try_write` (hence `write`) succeeds exactly when the reference is alive;
and on a live reference, `write(v1)` followed by `write(v2)` has the second
call return `v1` — `write` returns the prior value. -/
theorem C9_write_returns_prior {w : World V} {r : Ref Addr} (v1 v2 : V)
    (hW : Wf w) (hvp : r.value = r.genPtr) (hg : 0 < r.gen) :
    (Ref.write w r v1 = Ref.tryWrite w r v1) ∧
    ((Ref.tryWrite w r v1).isSome = true ↔ r.isAlive w = true) ∧
    (r.isAlive w = true →
      ∃ v0 w1, Ref.tryWrite w r v1 = some (v0, w1) ∧
        ∃ w2, Ref.tryWrite w1 r v2 = some (v1, w2)) := by
  have hread : r.isAlive w = true → ∃ o, w.readVal r.value = some o := by
    intro ha
    obtain ⟨s, hs0, hgen⟩ := (isAlive_true_iff w r).mp ha
    have hvs : s.val.isSome = true := hW.valInit r.genPtr s hs0 (by omega)
    obtain ⟨o, ho⟩ := Option.isSome_iff_exists.mp hvs
    refine ⟨o, ?_⟩
    unfold World.readVal
    rw [hvp, hs0]
    simp only [Option.some_bind]
    exact ho
  refine ⟨rfl, ?_, ?_⟩
  · constructor
    · intro hsome
      obtain ⟨res, hres⟩ := Option.isSome_iff_exists.mp hsome
      obtain ⟨o, w1⟩ := res
      exact (tryWrite_spec hres).1
    · intro ha
      obtain ⟨o, ho⟩ := hread ha
      rw [tryWrite_eq_some ha ho]
      rfl
  · intro ha
    obtain ⟨o, ho⟩ := hread ha
    obtain ⟨s, hs0, hgen⟩ := (isAlive_true_iff w r).mp ha
    have hs : w.getSlot r.value = some s := by
      rw [hvp]
      exact hs0
    refine ⟨o, w.writeVal r.value v1, tryWrite_eq_some ha ho, ?_⟩
    have hs1 : (w.writeVal r.value v1).getSlot r.value = some ⟨s.gen, some v1⟩ :=
      getSlot_writeVal_self v1 hs
    have hs1' : (w.writeVal r.value v1).getSlot r.genPtr = some ⟨s.gen, some v1⟩ := by
      rw [← hvp]
      exact hs1
    have ha1 : r.isAlive (w.writeVal r.value v1) = true := by
      rw [isAlive_true_iff]
      exact ⟨⟨s.gen, some v1⟩, hs1', hgen⟩
    have hro1 : (w.writeVal r.value v1).readVal r.value = some v1 := by
      unfold World.readVal
      rw [hs1]
      rfl
    exact ⟨(w.writeVal r.value v1).writeVal r.value v2, tryWrite_eq_some ha1 hro1⟩

/-- Witness for C9: writing `100` then `200` through the live `sampleRef`
in `sampleW1`. -/
theorem C9_write_returns_prior_witness :
    (Ref.write sampleW1 sampleRef 100 = Ref.tryWrite sampleW1 sampleRef 100) ∧
    ((Ref.tryWrite sampleW1 sampleRef 100).isSome = true ↔
      Ref.isAlive sampleW1 sampleRef = true) ∧
    (Ref.isAlive sampleW1 sampleRef = true →
      ∃ v0 w1, Ref.tryWrite sampleW1 sampleRef 100 = some (v0, w1) ∧
        ∃ w2, Ref.tryWrite w1 sampleRef 200 = some (100, w2)) :=
  C9_write_returns_prior 100 200 (wf_reachable ⟨sampleTrace1, rfl⟩) rfl (by decide)

end Bees

namespace Bees

/-- C10: `Allocation::dealloc` on a valid arena handle succeeds and empties
every slot — every outstanding reference into the arena (any nonzero
captured generation) is dead and `try_get` reports absence at every
in-range index — while changing nothing else: the arena's length, every
other allocation, and the generation counter are untouched, and a
subsequent `put` at any in-range index (under a fresh counter value)
succeeds and returns a live reference. -/
theorem C10_dealloc_frame {w : World V} {a : Nat} (ha : a < w.heapLen) :
    ∃ w', Allocation.dealloc w a = some w' ∧
      (∀ (π2 : Type) (r : Ref π2), r.genPtr.1 = a → 0 < r.gen → r.isAlive w' = false) ∧
      (∀ i, i < (w.heap a).len → Allocation.tryGet w' a i = some none) ∧
      w'.heapLen = w.heapLen ∧ (∀ b, (w'.heap b).len = (w.heap b).len) ∧
      w'.genCtr = w.genCtr ∧
      (∀ q : Addr, q.1 ≠ a → w'.getSlot q = w.getSlot q) ∧
      (0 < w.genCtr → w.db w.genCtr = none →
        ∀ i (v : V), i < (w.heap a).len →
          ∃ r w2, Allocation.put w' a i v = some (r, w2) ∧ r.isAlive w2 = true) := by
  obtain ⟨w', hd, hctr, hlen, hlens, hframe, hzero, hout, hdb⟩ := dealloc_spec ha
  refine ⟨w', hd, ?_, ?_, hlen, hlens, hctr, hframe, ?_⟩
  · intro π2 r hr1 hrg
    rw [isAlive_false_iff]
    intro s hs
    by_cases h2 : r.genPtr.2 < (w.heap a).len
    · obtain ⟨s', hs', hg'⟩ := hzero r.genPtr.2 h2
      have hpr : (a, r.genPtr.2) = r.genPtr := by
        rw [← hr1]
      rw [hpr] at hs'
      rw [hs'] at hs
      cases hs
      omega
    · have hpr : (a, r.genPtr.2) = r.genPtr := by
        rw [← hr1]
      have hsame := hout r.genPtr.2 (by omega)
      rw [hpr] at hsame
      have hnone : w.getSlot r.genPtr = none := by
        unfold World.getSlot
        rw [if_neg]
        intro hcon
        rw [hr1] at hcon
        exact h2 hcon.2
      rw [hsame, hnone] at hs
      cases hs
  · intro i hi
    obtain ⟨s', hs', hg'⟩ := hzero i hi
    have hf : s'.isFull = false := by
      simp [Generational.isFull, hg']
    simp only [Allocation.tryGet, hs', hf]
    rfl
  · intro hpos hdbnone i v hi
    obtain ⟨s0, hs0, hg0⟩ := hzero i hi
    have hc0 : ¬ w'.genCtr = 0 := by
      rw [hctr]
      omega
    have hgenw : dbGen w' = some (w'.genCtr, { w' with genCtr := (w'.genCtr + 1) % u64Size }) := by
      simp only [dbGen]
      rw [if_neg hc0]
    have hs0' : ({ w' with genCtr := (w'.genCtr + 1) % u64Size } : World V).getSlot (a, i)
        = some s0 := hs0
    have hdbn : ({ w' with genCtr := (w'.genCtr + 1) % u64Size } : World V).db w'.genCtr
        = none := by
      show w'.db w'.genCtr = none
      rw [hctr]
      exact hdb w.genCtr hdbnone
    have hput := @putWithGen_succeeds V ({ w' with genCtr := (w'.genCtr + 1) % u64Size })
      a i (w'.genCtr) v s0 hs0' hg0 hdbn
    have hputfull : Allocation.put w' a i v =
        some (⟨(a, i), w'.genCtr, (a, i)⟩,
          World.setSlot
            { ({ w' with genCtr := (w'.genCtr + 1) % u64Size } : World V) with
              db := dbInsert w'.db w'.genCtr (a, i) }
            (a, i) ⟨w'.genCtr, some v⟩) := by
      unfold Allocation.put
      rw [hgenw]
      simp only [Option.some_bind]
      exact hput
    refine ⟨_, _, hputfull, ?_⟩
    obtain ⟨-, -, -, -, hslot, -⟩ := putWithGen_spec hput
    rw [isAlive_true_iff]
    exact ⟨⟨w'.genCtr, some v⟩, hslot, rfl⟩

/-- Witness for C10: deallocating the one-slot arena of `sampleW1`. -/
theorem C10_dealloc_frame_witness :
    ∃ w', Allocation.dealloc sampleW1 0 = some w' ∧
      (∀ (π2 : Type) (r : Ref π2), r.genPtr.1 = 0 → 0 < r.gen → r.isAlive w' = false) ∧
      (∀ i, i < (sampleW1.heap 0).len → Allocation.tryGet w' 0 i = some none) ∧
      w'.heapLen = sampleW1.heapLen ∧
      (∀ b, (w'.heap b).len = (sampleW1.heap b).len) ∧
      w'.genCtr = sampleW1.genCtr ∧
      (∀ q : Addr, q.1 ≠ 0 → w'.getSlot q = sampleW1.getSlot q) ∧
      (0 < sampleW1.genCtr → sampleW1.db sampleW1.genCtr = none →
        ∀ i (v : Nat), i < (sampleW1.heap 0).len →
          ∃ r w2, Allocation.put w' 0 i v = some (r, w2) ∧ r.isAlive w2 = true) :=
  C10_dealloc_frame (by decide)

end Bees
